import Mathlib

/-!
Verification development for the `pond` versioned-artifact store.

The core library modules (`pond/activity.py`, `pond/versioned_artifact.py`,
`pond/conventions.py`) are not present under `src/`; only their callers
(the demo notebook, whose error tracebacks expose fragments of
`Activity.write` and `VersionedArtifact.write`) and the documentation are.
The definitions below are therefore modelled from the specification, staying
faithful to its words and to the code fragments visible in the notebook
tracebacks (e.g. `write_history.add(version_uri)` running after every
successful `VersionedArtifact.write`, and `VersionAlreadyExists` being
raised before any state change).
-/

/-- Modelled from the spec: the decimal digit characters used by the
version-naming scheme (`"v" + integer`); `pond/conventions.py` is not in
`src/`. -/
def digitChar : Nat → Char
  | 0 => '0'
  | 1 => '1'
  | 2 => '2'
  | 3 => '3'
  | 4 => '4'
  | 5 => '5'
  | 6 => '6'
  | 7 => '7'
  | 8 => '8'
  | _ => '9'

/-- Numeric value of a decimal digit character. -/
def digitVal (c : Char) : Nat := c.toNat - 48

/-- Decimal numeral by structural recursion on a fuel bound (any fuel at
least the number itself is enough, since `n / 10 < n` for `n ≥ 10`). -/
def natDigitsF : Nat → Nat → List Char
  | 0, n => [digitChar n]
  | fuel + 1, n =>
    if n < 10 then [digitChar n]
    else natDigitsF fuel (n / 10) ++ [digitChar (n % 10)]

/-- Modelled from the spec: decimal numeral of a natural number, most
significant digit first. -/
def natDigits (n : Nat) : List Char := natDigitsF n n

/-- Value of a decimal numeral (list of digit characters). -/
def digitsToNat (l : List Char) : Nat :=
  l.foldl (fun acc c => acc * 10 + digitVal c) 0

/-- Modelled from the spec: version names are generated as `"v"` followed by
the decimal numeral of a positive integer (`v1`, `v2`, ...). -/
def vName (n : Nat) : String := String.mk ('v' :: natDigits n)

/-- Modelled from the spec: version-name parsing (`"v" + integer`); a name
that is not of this shape parses to `none` (malformed). -/
def parseVersionName (s : String) : Option Nat :=
  match s.data with
  | 'v' :: c :: rest =>
    if (c :: rest).all (fun d => d.isDigit) then some (digitsToNat (c :: rest)) else none
  | _ => none

/-- Modelled from the spec: version names are ordered numerically (by their
parsed integer), not lexically; names that do not parse are not ordered. -/
def versionNameLt (a b : String) : Bool :=
  match parseVersionName a, parseVersionName b with
  | some m, some n => decide (m < n)
  | _, _ => false

/-- Modelled from the spec: the next unused numeric version number over a
backend listing: `max(existing valid numeric names) + 1`, or `1` when none
parse; malformed names in the listing are skipped, never fatal. -/
def nextVersionNumber (names : List String) : Nat :=
  (names.filterMap parseVersionName).foldl (fun a b => max a b) 0 + 1

/-- Modelled from the spec: the highest numeric version number in a backend
listing, `none` when no name parses. -/
def latestNumber (names : List String) : Option Nat :=
  match names.filterMap parseVersionName with
  | [] => none
  | n :: ns => some ((n :: ns).foldl (fun a b => max a b) 0)

/-- Characters of the URI scheme head `pond://`. -/
def pondChars : List Char := ['p', 'o', 'n', 'd', ':', '/', '/']

/-- Modelled from the spec: a URI is the tuple
`(datastore-id, location, name, version_name)`. -/
structure Uri where
  datastore : String
  location : String
  name : String
  version_name : String
deriving DecidableEq, Repr

/-- Split a character list at every `/`. -/
def splitSlash : List Char → List (List Char)
  | [] => [[]]
  | c :: cs =>
    match splitSlash cs with
    | [] => [[]]
    | p :: ps => if c = '/' then [] :: p :: ps else (c :: p) :: ps

/-- Interleave `/` between the parts. -/
def joinSlash : List (List Char) → List Char
  | [] => []
  | [p] => p
  | p :: ps => p ++ '/' :: joinSlash ps

/-- Modelled from the spec: canonical string form
`pond://<datastore-id>/<location>/<name>/<version_name>`. -/
def formatUri (u : Uri) : String :=
  String.mk (pondChars ++ joinSlash [u.datastore.data, u.location.data, u.name.data, u.version_name.data])

/-- Modelled from the spec: parse a URI string of the canonical form back
into its four components; anything else is rejected. -/
def parseUri (s : String) : Option Uri :=
  if s.data.take 7 = pondChars then
    match splitSlash (s.data.drop 7) with
    | [a, b, c, d] => some ⟨String.mk a, String.mk b, String.mk c, String.mk d⟩
    | _ => none
  else none

/-- A URI component is a string that contains no `/`. -/
def noSlash (s : String) : Prop := '/' ∉ s.data

instance (s : String) : Decidable (noSlash s) := by
  unfold noSlash; infer_instance

/-- A `Uri` record whose four components are valid URI segments. -/
def uriOk (u : Uri) : Prop :=
  noSlash u.datastore ∧ noSlash u.location ∧ noSlash u.name ∧ noSlash u.version_name

instance (u : Uri) : Decidable (uriOk u) := by
  unfold uriOk; infer_instance

/-- A well-formed URI string: the canonical print of some component-wise
valid `Uri` record. -/
def WellFormedUri (s : String) : Prop :=
  ∃ u : Uri, uriOk u ∧ s = formatUri u

/-- Modelled from the spec: the three write modes of `pond.conventions.WriteMode`. -/
inductive WriteMode
  | ERROR_IF_EXISTS
  | WRITE_ON_CHANGE
  | OVERWRITE
deriving DecidableEq, Repr

/-- Modelled from the spec: the error kinds surfaced to the caller
(`ArtifactNotFound`, `VersionNotFound`, `VersionAlreadyExists`,
`InvalidVersionName`). `VersionAlreadyExists` carries the colliding URI, as
shown by the notebook traceback (`raise VersionAlreadyExists(uri)`). -/
inductive PondError
  | ArtifactNotFound
  | VersionNotFound
  | VersionAlreadyExists (uri : String)
  | InvalidVersionName
deriving DecidableEq, Repr

/-- Modelled from the spec: the lineage section of a manifest — source
identifier, author, and the upstream URIs (the Activity's `read_history`
snapshot at the moment of the write). -/
structure Lineage where
  source : String
  author : String
  inputs : List String
deriving DecidableEq, Repr

/-- Modelled from the spec: a manifest holds a `lineage` section and a
`user` section of caller-supplied free-form metadata. -/
structure Manifest where
  lineage : Lineage
  user : List (String × String)
deriving DecidableEq, Repr

/-- Modelled from the spec: one stored version of an artifact — its version
name, the digest of its content, and its manifest. The digest stands for
the stored content in this model (read returns it, `WRITE_ON_CHANGE`
compares it). -/
structure StoredVersion where
  version_name : String
  digest : Nat
  manifest : Manifest
deriving DecidableEq, Repr

deriving instance DecidableEq for Except

/-- The backend listing of an artifact's version names. -/
def artNames (art : List StoredVersion) : List String :=
  art.map (fun v => v.version_name)

/-- Modelled from the spec: the latest (highest-numbered) stored version of
an artifact, `none` when no stored name parses as a version name. -/
def latestVersion (art : List StoredVersion) : Option StoredVersion :=
  match latestNumber (artNames art) with
  | none => none
  | some n => art.find? (fun v => parseVersionName v.version_name == some n)

/-- Replace the stored version named `vn` by `v`, leaving all other
versions in place (in-place overwrite of one version's bytes). -/
def replaceVersion (art : List StoredVersion) (vn : String) (v : StoredVersion) :
    List StoredVersion :=
  art.map (fun w => if w.version_name = vn then v else w)

/-- Modelled from the spec: `VersionedArtifact.write`, the pure write-mode
decision function over the existing versions, the optional explicit version
name, the write mode and the new content digest (`pond/versioned_artifact.py`
is not in `src/`). It returns the new version list, the resulting version,
and whether a fresh write of bytes was performed (`false` exactly on the
`WRITE_ON_CHANGE` unchanged-content no-op). For the spec's explicitly open
question — `WRITE_ON_CHANGE` with an explicit name colliding with different
content — this model picks the deterministic choice of failing with
`VersionAlreadyExists`. -/
def VersionedArtifact.write (datastore_id location name : String)
    (art : List StoredVersion) (digest : Nat) (manifest : Manifest)
    (version_name : Option String) (mode : WriteMode) :
    Except PondError (List StoredVersion × StoredVersion × Bool) :=
  match version_name with
  | none =>
    match mode with
    | .ERROR_IF_EXISTS =>
      let v : StoredVersion := ⟨vName (nextVersionNumber (artNames art)), digest, manifest⟩
      .ok (art ++ [v], v, true)
    | .WRITE_ON_CHANGE =>
      match latestVersion art with
      | some lv =>
        if lv.digest = digest then .ok (art, lv, false)
        else
          let v : StoredVersion := ⟨vName (nextVersionNumber (artNames art)), digest, manifest⟩
          .ok (art ++ [v], v, true)
      | none =>
        let v : StoredVersion := ⟨vName (nextVersionNumber (artNames art)), digest, manifest⟩
        .ok (art ++ [v], v, true)
    | .OVERWRITE =>
      match latestVersion art with
      | some lv =>
        let v : StoredVersion := ⟨lv.version_name, digest, manifest⟩
        .ok (replaceVersion art lv.version_name v, v, true)
      | none =>
        let v : StoredVersion := ⟨vName 1, digest, manifest⟩
        .ok (art ++ [v], v, true)
  | some vn =>
    if (parseVersionName vn).isNone then .error .InvalidVersionName
    else
      match mode with
      | .ERROR_IF_EXISTS =>
        if vn ∈ artNames art then
          .error (.VersionAlreadyExists (formatUri ⟨datastore_id, location, name, vn⟩))
        else
          let v : StoredVersion := ⟨vn, digest, manifest⟩
          .ok (art ++ [v], v, true)
      | .WRITE_ON_CHANGE =>
        match art.find? (fun v => v.version_name == vn) with
        | some v0 =>
          if v0.digest = digest then .ok (art, v0, false)
          else .error (.VersionAlreadyExists (formatUri ⟨datastore_id, location, name, vn⟩))
        | none =>
          let v : StoredVersion := ⟨vn, digest, manifest⟩
          .ok (art ++ [v], v, true)
      | .OVERWRITE =>
        if vn ∈ artNames art then
          let v : StoredVersion := ⟨vn, digest, manifest⟩
          .ok (replaceVersion art vn v, v, true)
        else
          let v : StoredVersion := ⟨vn, digest, manifest⟩
          .ok (art ++ [v], v, true)

/-- Modelled from the spec: the datastore, an association of
`(location, artifact name)` keys to the list of stored versions. -/
def Datastore : Type := List ((String × String) × List StoredVersion)

instance : DecidableEq Datastore := by
  unfold Datastore; infer_instance

/-- The versions stored for one `(location, name)` key (the backend
listing); an absent key means zero versions. -/
def dsGet (ds : Datastore) (k : String × String) : List StoredVersion :=
  match ds with
  | [] => []
  | (k', a) :: rest => if k' = k then a else dsGet rest k

/-- Store a version list for one `(location, name)` key. -/
def dsSet (ds : Datastore) (k : String × String) (a : List StoredVersion) : Datastore :=
  match ds with
  | [] => [(k, a)]
  | (k', a') :: rest => if k' = k then (k, a) :: rest else (k', a') :: dsSet rest k a

/-- Modelled from the spec: the session coordinator. It binds the identity
fields and carries `read_history` / `write_history`, sets of URIs that only
grow for the session's lifetime (modelled as duplicate-free accumulation
lists). -/
structure Activity where
  source : String
  author : String
  location : String
  datastore_id : String
  read_history : List String
  write_history : List String
deriving DecidableEq, Repr

/-- Add a URI to a history set: append it unless already present. -/
def insertUri (u : String) (l : List String) : List String :=
  if u ∈ l then l else l ++ [u]

/-- Modelled from the spec: manifest assembly on every write — the lineage
section snapshots the Activity's identity and its accumulated
`read_history` at the moment of the write; the `user` section stores the
caller's metadata verbatim. -/
def Activity.makeManifest (a : Activity) (metadata : List (String × String)) : Manifest :=
  { lineage := { source := a.source, author := a.author, inputs := a.read_history },
    user := metadata }

/-- The URI of a version of artifact `name` at the Activity's default
location. -/
def uriAt (a : Activity) (name : String) (v : StoredVersion) : String :=
  formatUri ⟨a.datastore_id, a.location, name, v.version_name⟩

/-- Modelled from the spec and the notebook traceback: `Activity.write` —
assemble the manifest, delegate to `VersionedArtifact.write`, and on
success record the resulting version's URI in `write_history`
(`self.write_history.add(version_uri)` runs after `versioned_artifact.write`
returns, also on the `WRITE_ON_CHANGE` no-op); on failure the exception
propagates before any state change. The datastore is only touched when
bytes were actually written. -/
def Activity.write (a : Activity) (ds : Datastore) (digest : Nat) (name : String)
    (version_name : Option String) (metadata : List (String × String)) (mode : WriteMode) :
    Activity × Datastore × Except PondError (StoredVersion × Bool) :=
  let art := dsGet ds (a.location, name)
  let manifest := Activity.makeManifest a metadata
  match VersionedArtifact.write a.datastore_id a.location name art digest manifest version_name mode with
  | .error e => (a, ds, .error e)
  | .ok (art', v, wrote) =>
    ({ a with write_history := insertUri (uriAt a name v) a.write_history },
     if wrote then dsSet ds (a.location, name) art' else ds,
     .ok (v, wrote))

/-- Modelled from the spec: `Activity.read` — zero versions fail with
`ArtifactNotFound`; an explicit absent version fails with
`VersionNotFound`; with no explicit version the highest-numbered version is
returned; a successful read extends `read_history` with the version's URI.
The datastore is never modified. -/
def Activity.read (a : Activity) (ds : Datastore) (name : String)
    (version_name : Option String) :
    Activity × Except PondError StoredVersion :=
  let art := dsGet ds (a.location, name)
  if art.isEmpty then (a, .error .ArtifactNotFound)
  else
    match version_name with
    | none =>
      match latestVersion art with
      | some v =>
        ({ a with read_history := insertUri (uriAt a name v) a.read_history }, .ok v)
      | none => (a, .error .ArtifactNotFound)
    | some vn =>
      match art.find? (fun v => v.version_name == vn) with
      | some v =>
        ({ a with read_history := insertUri (uriAt a name v) a.read_history }, .ok v)
      | none => (a, .error .VersionNotFound)

/-- An Activity fresh at session start: bound identity, empty histories. -/
def freshActivity (source author location datastore_id : String) : Activity :=
  ⟨source, author, location, datastore_id, [], []⟩

/-- Repeatedly call `Activity.write` on artifact `name` in the default
`ERROR_IF_EXISTS` mode with no explicit version, once per `(digest,
metadata)` input. -/
def writeMany (a : Activity) (ds : Datastore) (name : String) :
    List (Nat × List (String × String)) → Activity × Datastore
  | [] => (a, ds)
  | (d, md) :: rest =>
    let r := Activity.write a ds d name none md .ERROR_IF_EXISTS
    writeMany r.1 r.2.1 name rest

/-- Run a whole sequence of write calls, each with its own content digest,
artifact name, optional explicit version name, metadata and write mode. -/
def writeSeqAny (a : Activity) (ds : Datastore) :
    List (Nat × String × Option String × List (String × String) × WriteMode) →
      Activity × Datastore
  | [] => (a, ds)
  | (d, name, vn, md, mode) :: rest =>
    let r := Activity.write a ds d name vn md mode
    writeSeqAny r.1 r.2.1 rest

/-- One session operation: a write or a read against the default location. -/
inductive Op
  | write (digest : Nat) (name : String) (version_name : Option String)
      (metadata : List (String × String)) (mode : WriteMode)
  | read (name : String) (version_name : Option String)

/-- A session state instrumented with the list of URIs of versions actually
persisted so far (fresh byte writes, deduplicated in order). -/
structure TraceState where
  activity : Activity
  ds : Datastore
  persisted : List String
deriving DecidableEq

/-- Run one operation, recording in `persisted` the URI of any version
whose bytes were actually written. -/
def stepOp (s : TraceState) (op : Op) : TraceState :=
  match op with
  | .read name vn =>
    let r := Activity.read s.activity s.ds name vn
    { s with activity := r.1 }
  | .write d name vn md mode =>
    let r := Activity.write s.activity s.ds d name vn md mode
    match r.2.2 with
    | .ok (v, wrote) =>
      { activity := r.1, ds := r.2.1,
        persisted := if wrote then insertUri (uriAt s.activity name v) s.persisted else s.persisted }
    | .error _ => { activity := r.1, ds := r.2.1, persisted := s.persisted }

/-- Run a whole session. -/
def runTrace (ops : List Op) (s : TraceState) : TraceState :=
  ops.foldl stepOp s

/-- A concrete manifest, used for concrete evaluations. -/
def sampleManifest : Manifest :=
  ⟨⟨"010_initial_data.ipynb", "pietro", []⟩, [("validated", "true")]⟩

/-- A concrete artifact holding versions `v1`, `v2`, `v3` with pairwise
different content digests. -/
def sampleArt3 : List StoredVersion :=
  [⟨"v1", 1, sampleManifest⟩, ⟨"v2", 2, sampleManifest⟩, ⟨"v3", 3, sampleManifest⟩]

/-- A concrete fresh Activity matching the demo notebook's session. -/
def sampleActivity : Activity :=
  freshActivity "010_initial_data.ipynb" "pietro" "experiment1" "catalog"

/-- A concrete datastore holding one artifact with three versions. -/
def sampleDatastore : Datastore :=
  [(("experiment1", "condition1_results"), sampleArt3)]

/-- A concrete Activity that has already performed one read. -/
def sampleActivityR : Activity :=
  { sampleActivity with read_history := ["pond://catalog/experiment1/experiment_data/v1"] }

/-! ## Decimal numeral round-trip -/

theorem digitVal_digitChar {k : Nat} (h : k < 10) : digitVal (digitChar k) = k := by
  interval_cases k <;> decide

theorem isDigit_digitChar (k : Nat) : (digitChar k).isDigit = true := by
  unfold digitChar
  split <;> decide

theorem natDigitsF_ne_nil (fuel n : Nat) : natDigitsF fuel n ≠ [] := by
  cases fuel with
  | zero => simp [natDigitsF]
  | succ fuel =>
    unfold natDigitsF
    split <;> simp

theorem natDigits_ne_nil (n : Nat) : natDigits n ≠ [] := natDigitsF_ne_nil n n

theorem natDigitsF_all_digits (fuel n : Nat) :
    (natDigitsF fuel n).all (fun d => d.isDigit) = true := by
  induction fuel generalizing n with
  | zero => simp [natDigitsF, isDigit_digitChar]
  | succ fuel ih =>
    unfold natDigitsF
    split
    · simp [isDigit_digitChar]
    · rw [List.all_append]
      simp [isDigit_digitChar, ih (n / 10)]

theorem natDigits_all_digits (n : Nat) : (natDigits n).all (fun d => d.isDigit) = true :=
  natDigitsF_all_digits n n

theorem digitsToNat_append (l : List Char) (c : Char) :
    digitsToNat (l ++ [c]) = digitsToNat l * 10 + digitVal c := by
  simp [digitsToNat, List.foldl_append]

theorem digitsToNat_natDigitsF (fuel n : Nat) (h : n ≤ fuel) :
    digitsToNat (natDigitsF fuel n) = n := by
  induction fuel generalizing n with
  | zero =>
    have hn : n = 0 := by omega
    subst hn
    decide
  | succ fuel ih =>
    unfold natDigitsF
    split
    · rename_i hlt
      simp [digitsToNat, digitVal_digitChar hlt]
    · rename_i hge
      rw [digitsToNat_append, ih (n / 10) (by omega),
        digitVal_digitChar (show n % 10 < 10 by omega)]
      omega

theorem digitsToNat_natDigits (n : Nat) : digitsToNat (natDigits n) = n :=
  digitsToNat_natDigitsF n n (Nat.le_refl n)

theorem parseVersionName_vName (n : Nat) : parseVersionName (vName n) = some n := by
  obtain ⟨c, rest, hd⟩ : ∃ c rest, natDigits n = c :: rest := by
    cases hd : natDigits n with
    | nil => exact absurd hd (natDigits_ne_nil n)
    | cons c rest => exact ⟨c, rest, rfl⟩
  have hall := natDigits_all_digits n
  rw [hd] at hall
  have hval := digitsToNat_natDigits n
  rw [hd] at hval
  simp [parseVersionName, vName, hd, hall, hval]

/-! ## URI round-trip -/

theorem splitSlash_ne_nil (l : List Char) : splitSlash l ≠ [] := by
  cases l with
  | nil => simp [splitSlash]
  | cons c cs =>
    unfold splitSlash
    rcases h : splitSlash cs with _ | ⟨p, ps⟩ <;> simp [h] <;> split <;> simp

theorem splitSlash_noSlash (p : List Char) (h : '/' ∉ p) : splitSlash p = [p] := by
  induction p with
  | nil => rfl
  | cons c cs ih =>
    have hc : c ≠ '/' := by
      intro e
      exact h (by simp [e])
    have hcs : '/' ∉ cs := fun m => h (List.mem_cons_of_mem _ m)
    unfold splitSlash
    rw [ih hcs]
    simp [hc]

theorem splitSlash_cons (c : Char) (cs : List Char) :
    splitSlash (c :: cs) = match splitSlash cs with
      | [] => [[]]
      | p :: ps => if c = '/' then [] :: p :: ps else (c :: p) :: ps := rfl

theorem splitSlash_append (p rest : List Char) (h : '/' ∉ p) :
    splitSlash (p ++ '/' :: rest) = p :: splitSlash rest := by
  induction p with
  | nil =>
    rw [List.nil_append, splitSlash_cons]
    rcases hr : splitSlash rest with _ | ⟨q, qs⟩
    · exact absurd hr (splitSlash_ne_nil rest)
    · simp
  | cons c cs ih =>
    have hc : c ≠ '/' := by
      intro e
      exact h (by simp [e])
    have hcs : '/' ∉ cs := fun m => h (List.mem_cons_of_mem _ m)
    rw [List.cons_append, splitSlash_cons, ih hcs]
    simp [hc]

theorem splitSlash_joinSlash (parts : List (List Char)) (hne : parts ≠ [])
    (h : ∀ p ∈ parts, '/' ∉ p) : splitSlash (joinSlash parts) = parts := by
  induction parts with
  | nil => contradiction
  | cons p ps ih =>
    cases ps with
    | nil => simpa [joinSlash] using splitSlash_noSlash p (h p (by simp))
    | cons q qs =>
      rw [show joinSlash (p :: q :: qs) = p ++ '/' :: joinSlash (q :: qs) from rfl,
        splitSlash_append p _ (h p (by simp)),
        ih (by simp) (fun r hr => h r (List.mem_cons_of_mem _ hr))]

theorem parseUri_formatUri (u : Uri) (h : uriOk u) : parseUri (formatUri u) = some u := by
  obtain ⟨h1, h2, h3, h4⟩ := h
  have hsplit : splitSlash (joinSlash
      [u.datastore.data, u.location.data, u.name.data, u.version_name.data]) =
      [u.datastore.data, u.location.data, u.name.data, u.version_name.data] := by
    apply splitSlash_joinSlash _ (by simp)
    intro p hp
    simp only [List.mem_cons, List.not_mem_nil, or_false] at hp
    rcases hp with rfl | rfl | rfl | rfl
    · exact h1
    · exact h2
    · exact h3
    · exact h4
  have htake : (pondChars ++ joinSlash
      [u.datastore.data, u.location.data, u.name.data, u.version_name.data]).take 7 =
      pondChars := List.take_left' rfl
  have hdrop : (pondChars ++ joinSlash
      [u.datastore.data, u.location.data, u.name.data, u.version_name.data]).drop 7 =
      joinSlash [u.datastore.data, u.location.data, u.name.data, u.version_name.data] :=
    List.drop_left' rfl
  simp [parseUri, formatUri, htake, hdrop, hsplit]

theorem filterMap_parse_filter_isSome (names : List String) :
    (names.filter (fun s => (parseVersionName s).isSome)).filterMap parseVersionName =
    names.filterMap parseVersionName := by
  induction names with
  | nil => rfl
  | cons s rest ih =>
    cases h : parseVersionName s with
    | none => simp [List.filter_cons, List.filterMap_cons, h, ih]
    | some k => simp [List.filter_cons, List.filterMap_cons, h, ih]

/-- C7: version names are ordered numerically, not lexically (`v10 > v9`
numerically even though `v10` precedes `v9` lexically), and next-version
computation is total over any backend listing: prepending a malformed name
never changes the result, and dropping all malformed names from the listing
never changes the result, so the next numeric version is `1 +` the maximum
over the valid names alone. -/
theorem version_ordering_and_malformed_skipped :
    (∀ (names : List String) (m : String), parseVersionName m = none →
      nextVersionNumber (m :: names) = nextVersionNumber names) ∧
    (∀ names : List String,
      nextVersionNumber names =
      nextVersionNumber (names.filter (fun s => (parseVersionName s).isSome))) ∧
    versionNameLt "v9" "v10" = true ∧
    "v10".data < "v9".data := by
  refine ⟨?_, ?_, by decide, by decide⟩
  · intro names m h
    simp [nextVersionNumber, List.filterMap_cons, h]
  · intro names
    unfold nextVersionNumber
    rw [filterMap_parse_filter_isSome]

/-- C7 witness: a listing polluted with the malformed name
`not-a-version` yields the same next version as the clean listing. -/
theorem version_ordering_and_malformed_skipped_witness :
    parseVersionName "not-a-version" = none ∧
    nextVersionNumber ["not-a-version", "v9", "v10"] = nextVersionNumber ["v9", "v10"] ∧
    nextVersionNumber ["v9", "v10"] = 11 :=
  ⟨rfl, version_ordering_and_malformed_skipped.1 ["v9", "v10"] "not-a-version" rfl, by decide⟩

/-- C8: URI parsing and formatting are mutually inverse on well-formed
inputs: every well-formed URI string (the canonical print
`pond://<datastore-id>/<location>/<name>/<version_name>` of a record with
slash-free components) parses back to a record that formats to exactly the
same string. -/
theorem uri_parse_format_roundtrip (s : String) (h : WellFormedUri s) :
    ∃ u : Uri, parseUri s = some u ∧ formatUri u = s := by
  obtain ⟨u, hok, rfl⟩ := h
  exact ⟨u, parseUri_formatUri u hok, rfl⟩

/-- C8 witness: the round trip on a concrete URI from the demo session. -/
theorem uri_parse_format_roundtrip_witness :
    WellFormedUri "pond://catalog/experiment1/condition1_results/v1" ∧
    ∃ u : Uri, parseUri "pond://catalog/experiment1/condition1_results/v1" = some u ∧
      formatUri u = "pond://catalog/experiment1/condition1_results/v1" := by
  have hw : WellFormedUri "pond://catalog/experiment1/condition1_results/v1" :=
    ⟨⟨"catalog", "experiment1", "condition1_results", "v1"⟩, by decide, by decide⟩
  exact ⟨hw, uri_parse_format_roundtrip _ hw⟩

/-! ## Write-machine helper lemmas -/

theorem latestVersion_spec (art : List StoredVersion) (lv : StoredVersion)
    (h : latestVersion art = some lv) :
    lv ∈ art ∧ ∃ k, parseVersionName lv.version_name = some k ∧
      latestNumber (artNames art) = some k := by
  unfold latestVersion at h
  cases hl : latestNumber (artNames art) with
  | none => rw [hl] at h; exact absurd h (by simp)
  | some n =>
    rw [hl] at h
    refine ⟨List.mem_of_find?_eq_some h, n, ?_, rfl⟩
    have := List.find?_some h
    simpa using this

theorem nextVersionNumber_eq_succ (names : List String) (k : Nat)
    (h : latestNumber names = some k) : nextVersionNumber names = k + 1 := by
  unfold latestNumber at h
  unfold nextVersionNumber
  cases hf : names.filterMap parseVersionName with
  | nil => rw [hf] at h; exact absurd h (by simp)
  | cons n ns =>
    rw [hf] at h
    have hk := Option.some.inj h
    rw [hk]

theorem artNames_replaceVersion (art : List StoredVersion) (vn : String) (d : Nat)
    (m : Manifest) : artNames (replaceVersion art vn ⟨vn, d, m⟩) = artNames art := by
  induction art with
  | nil => rfl
  | cons w rest ih =>
    by_cases hw : w.version_name = vn <;>
      simp [replaceVersion, artNames, hw] <;>
      simpa [replaceVersion, artNames] using ih

theorem length_replaceVersion (art : List StoredVersion) (vn : String) (v : StoredVersion) :
    (replaceVersion art vn v).length = art.length := by
  simp [replaceVersion]

/-! ## Claims about the write-mode state machine -/

theorem write_read_history_frame (a : Activity) (ds : Datastore) (digest : Nat)
    (name : String) (vn : Option String) (md : List (String × String)) (mode : WriteMode) :
    (Activity.write a ds digest name vn md mode).1.read_history = a.read_history := by
  unfold Activity.write
  dsimp only
  split <;> rfl

theorem writeSeqAny_read_history
    (args : List (Nat × String × Option String × List (String × String) × WriteMode)) :
    ∀ (a : Activity) (ds : Datastore),
    (writeSeqAny a ds args).1.read_history = a.read_history := by
  induction args with
  | nil => intro a ds; rfl
  | cons p rest ih =>
    obtain ⟨d, name, vn, md, mode⟩ := p
    intro a ds
    exact (ih _ _).trans (write_read_history_frame a ds d name vn md mode)

/-- C10: `Activity.write` never modifies `read_history`: every single write
call — any mode, explicit or automatic version name, successful or failing
— leaves the Activity's `read_history` exactly as it was before the call,
and consequently any sequence of write calls does too, so an Activity that
has performed no reads keeps an empty `read_history`. -/
theorem write_preserves_read_history :
    (∀ (a : Activity) (ds : Datastore) (digest : Nat) (name : String) (vn : Option String)
      (md : List (String × String)) (mode : WriteMode),
      (Activity.write a ds digest name vn md mode).1.read_history = a.read_history) ∧
    (∀ (args : List (Nat × String × Option String × List (String × String) × WriteMode))
      (a : Activity) (ds : Datastore),
      (writeSeqAny a ds args).1.read_history = a.read_history) :=
  ⟨write_read_history_frame, fun args a ds => writeSeqAny_read_history args a ds⟩

/-- C3: an explicit `version_name` under `ERROR_IF_EXISTS` that already
exists for the artifact fails with `VersionAlreadyExists` (carrying that
version's URI) and performs no write: the Activity and the datastore are
returned exactly as they were. -/
theorem explicit_error_if_exists_collision_fails (a : Activity) (ds : Datastore)
    (digest : Nat) (name vn : String) (pn : Nat) (md : List (String × String))
    (hp : parseVersionName vn = some pn)
    (hm : vn ∈ artNames (dsGet ds (a.location, name))) :
    Activity.write a ds digest name (some vn) md .ERROR_IF_EXISTS =
      (a, ds, .error (.VersionAlreadyExists
        (formatUri ⟨a.datastore_id, a.location, name, vn⟩))) := by
  have hw : VersionedArtifact.write a.datastore_id a.location name
      (dsGet ds (a.location, name)) digest (Activity.makeManifest a md) (some vn)
      .ERROR_IF_EXISTS
      = .error (.VersionAlreadyExists (formatUri ⟨a.datastore_id, a.location, name, vn⟩)) := by
    unfold VersionedArtifact.write
    simp [hp, hm]
  unfold Activity.write
  dsimp only
  rw [hw]

/-- C3 witness: writing to the already-existing `v1` of the demo artifact
fails with `VersionAlreadyExists` at the URI shown in the notebook
traceback, leaving activity and datastore untouched. -/
theorem explicit_error_if_exists_collision_fails_witness :
    parseVersionName "v1" = some 1 ∧
    "v1" ∈ artNames (dsGet sampleDatastore (sampleActivity.location, "condition1_results")) ∧
    Activity.write sampleActivity sampleDatastore 7 "condition1_results" (some "v1")
        [("validated", "true")] .ERROR_IF_EXISTS =
      (sampleActivity, sampleDatastore,
        .error (.VersionAlreadyExists "pond://catalog/experiment1/condition1_results/v1")) := by
  refine ⟨by decide, by decide, ?_⟩
  exact (explicit_error_if_exists_collision_fails sampleActivity sampleDatastore 7
    "condition1_results" "v1" 1 [("validated", "true")] (by decide) (by decide)).trans (by decide)

theorem write_ok_manifest (dsid loc name : String) (art : List StoredVersion)
    (d : Nat) (m : Manifest) (vn : Option String) (mode : WriteMode)
    (art' : List StoredVersion) (v : StoredVersion)
    (h : VersionedArtifact.write dsid loc name art d m vn mode = .ok (art', v, true)) :
    v.manifest = m := by
  cases vn <;> cases mode <;>
    unfold VersionedArtifact.write at h <;>
    (repeat' split at h) <;>
    simp_all <;>
    (obtain ⟨h1, rfl⟩ := h; rfl)

/-- C9: the lineage of every version freshly persisted by `Activity.write`
is exactly the Activity's accumulated `read_history` at the moment of the
write: the stored manifest's upstream set equals the pre-call
`read_history` list, so every URI read before the write is in it and no
URI read after the write can appear in it (the stored snapshot is a value
fixed at write time, and `Activity.read` never modifies the datastore). -/
theorem lineage_snapshot_at_write (a : Activity) (ds : Datastore) (digest : Nat)
    (name : String) (vn : Option String) (md : List (String × String)) (mode : WriteMode)
    (a' : Activity) (ds' : Datastore) (v : StoredVersion)
    (h : Activity.write a ds digest name vn md mode = (a', ds', .ok (v, true))) :
    v.manifest.lineage.inputs = a.read_history := by
  unfold Activity.write at h
  dsimp only at h
  cases hw : VersionedArtifact.write a.datastore_id a.location name
      (dsGet ds (a.location, name)) digest (Activity.makeManifest a md) vn mode with
  | error e =>
    rw [hw] at h
    simp at h
  | ok r =>
    obtain ⟨art', v0, wrote⟩ := r
    rw [hw] at h
    simp only [Prod.mk.injEq, Except.ok.injEq] at h
    obtain ⟨h1, h2, rfl, rfl⟩ := h
    rw [write_ok_manifest _ _ _ _ _ _ _ _ _ _ hw]
    rfl

/-- C9 witness: a concrete write by an Activity that has read one upstream
URI stores exactly that URI as the lineage of the new version `v4`. -/
theorem lineage_snapshot_at_write_witness :
    (⟨"v4", 9, ⟨⟨"010_initial_data.ipynb", "pietro",
        ["pond://catalog/experiment1/experiment_data/v1"]⟩, []⟩⟩ : StoredVersion).manifest.lineage.inputs =
      sampleActivityR.read_history :=
  lineage_snapshot_at_write sampleActivityR sampleDatastore 9 "condition1_results" none []
    .ERROR_IF_EXISTS
    { sampleActivityR with
        write_history := ["pond://catalog/experiment1/condition1_results/v4"] }
    [(("experiment1", "condition1_results"),
      sampleArt3 ++ [⟨"v4", 9, ⟨⟨"010_initial_data.ipynb", "pietro",
        ["pond://catalog/experiment1/experiment_data/v1"]⟩, []⟩⟩])]
    ⟨"v4", 9, ⟨⟨"010_initial_data.ipynb", "pietro",
        ["pond://catalog/experiment1/experiment_data/v1"]⟩, []⟩⟩
    (by decide)

/-- C2: under `WRITE_ON_CHANGE` with no explicit version name, the decision
depends only on the content digest: when the latest version exists and its
stored digest equals the new digest, the call returns that latest version
unchanged and performs no write (for every manifest, so differing user
metadata alone never causes a new version); when the digests differ, a
fresh version is appended whose numeric name is strictly greater than the
latest's. -/
theorem write_on_change_digest_decides (dsid loc name : String) (art : List StoredVersion)
    (d : Nat) (m : Manifest) (lv : StoredVersion) (n : Nat)
    (hlv : latestVersion art = some lv)
    (hn : parseVersionName lv.version_name = some n) :
    nextVersionNumber (artNames art) = n + 1 ∧
    (lv.digest = d →
      VersionedArtifact.write dsid loc name art d m none .WRITE_ON_CHANGE =
        .ok (art, lv, false)) ∧
    (lv.digest ≠ d →
      VersionedArtifact.write dsid loc name art d m none .WRITE_ON_CHANGE =
        .ok (art ++ [⟨vName (n + 1), d, m⟩], ⟨vName (n + 1), d, m⟩, true) ∧ n < n + 1) := by
  obtain ⟨hmem, k, hk, hlat⟩ := latestVersion_spec art lv hlv
  have hkn : k = n := Option.some.inj (hk.symm.trans hn)
  subst hkn
  have hnext : nextVersionNumber (artNames art) = k + 1 :=
    nextVersionNumber_eq_succ _ _ hlat
  refine ⟨hnext, ?_, ?_⟩
  · intro heq
    unfold VersionedArtifact.write
    rw [hlv]
    simp [heq]
  · intro hne
    unfold VersionedArtifact.write
    rw [hlv]
    simp [hne, hnext]

/-- C2 witness: rewriting the latest content (digest 3, regardless of the
manifest passed) under `WRITE_ON_CHANGE` is a no-op returning `v3`. -/
theorem write_on_change_digest_decides_witness :
    VersionedArtifact.write "catalog" "experiment1" "condition1_results" sampleArt3 3
      sampleManifest none .WRITE_ON_CHANGE = .ok (sampleArt3, ⟨"v3", 3, sampleManifest⟩, false) := by
  have h := write_on_change_digest_decides "catalog" "experiment1" "condition1_results"
    sampleArt3 3 sampleManifest ⟨"v3", 3, sampleManifest⟩ 3 (by decide) (by decide)
  exact h.2.1 rfl

/-- C5 counterexample: from an artifact with zero versions, `OVERWRITE`
with no explicit version name targets `v1` and creates it, so the total
number of versions increases from 0 to 1 — refuting the claim's "the total
number of versions of the artifact never increases" at this input. -/
theorem overwrite_on_empty_counterexample :
    VersionedArtifact.write "catalog" "experiment1" "condition1_results" [] 7 sampleManifest
        none .OVERWRITE =
      .ok ([⟨"v1", 7, sampleManifest⟩], ⟨"v1", 7, sampleManifest⟩, true) ∧
    ¬ (([⟨"v1", 7, sampleManifest⟩] : List StoredVersion).length ≤
        ([] : List StoredVersion).length) :=
  ⟨by decide, by decide⟩

/-- C5 (amended): under `OVERWRITE` with no explicit version name, the
target is the highest-numbered existing version if any version exists —
the write proceeds unconditionally, replacing the content at that name and
leaving the version count and the set of version names unchanged — and
`v1` otherwise, in which case the artifact goes from zero versions to the
single version `v1` (the count increases from 0 to 1 in that case, the
only departure from the claim as stated). -/
theorem overwrite_targets_latest (dsid loc name : String) (art : List StoredVersion)
    (d : Nat) (m : Manifest) :
    (∀ lv, latestVersion art = some lv →
      VersionedArtifact.write dsid loc name art d m none .OVERWRITE =
        .ok (replaceVersion art lv.version_name ⟨lv.version_name, d, m⟩,
             ⟨lv.version_name, d, m⟩, true) ∧
      (replaceVersion art lv.version_name ⟨lv.version_name, d, m⟩).length = art.length ∧
      artNames (replaceVersion art lv.version_name ⟨lv.version_name, d, m⟩) = artNames art) ∧
    (latestVersion art = none →
      VersionedArtifact.write dsid loc name art d m none .OVERWRITE =
        .ok (art ++ [⟨vName 1, d, m⟩], ⟨vName 1, d, m⟩, true)) := by
  constructor
  · intro lv hlv
    refine ⟨?_, length_replaceVersion art lv.version_name _,
      artNames_replaceVersion art lv.version_name d m⟩
    unfold VersionedArtifact.write
    rw [hlv]
  · intro hnone
    unfold VersionedArtifact.write
    rw [hnone]

/-- C5 witness: overwriting the three-version demo artifact replaces the
bytes at `v3` in place, keeping exactly the versions `v1, v2, v3`. -/
theorem overwrite_targets_latest_witness :
    VersionedArtifact.write "catalog" "experiment1" "condition1_results" sampleArt3 9
        sampleManifest none .OVERWRITE =
      .ok ([⟨"v1", 1, sampleManifest⟩, ⟨"v2", 2, sampleManifest⟩, ⟨"v3", 9, sampleManifest⟩],
           ⟨"v3", 9, sampleManifest⟩, true) := by
  have h := (overwrite_targets_latest "catalog" "experiment1" "condition1_results"
    sampleArt3 9 sampleManifest).1 ⟨"v3", 3, sampleManifest⟩ (by decide)
  exact h.1.trans (by decide)

/-- C6: read resolution — with no version argument, `Activity.read`
returns the highest-numbered existing version (and records its URI in
`read_history`); with an explicit version name that is absent on a
non-empty artifact it fails with `VersionNotFound`; on an artifact name
with zero versions it fails with `ArtifactNotFound` (whatever the version
argument). -/
theorem read_resolution (a : Activity) (ds : Datastore) (name : String) :
    (∀ v, latestVersion (dsGet ds (a.location, name)) = some v →
      Activity.read a ds name none =
        ({ a with read_history := insertUri (uriAt a name v) a.read_history }, .ok v)) ∧
    (∀ vn, dsGet ds (a.location, name) ≠ [] →
      vn ∉ artNames (dsGet ds (a.location, name)) →
      Activity.read a ds name (some vn) = (a, .error .VersionNotFound)) ∧
    (∀ vno, dsGet ds (a.location, name) = [] →
      Activity.read a ds name vno = (a, .error .ArtifactNotFound)) := by
  refine ⟨?_, ?_, ?_⟩
  · intro v hv
    have hne : dsGet ds (a.location, name) ≠ [] :=
      List.ne_nil_of_mem (latestVersion_spec _ _ hv).1
    unfold Activity.read
    dsimp only
    rw [if_neg (by simpa using hne), hv]
  · intro vn hne hnm
    have hf : (dsGet ds (a.location, name)).find? (fun v => v.version_name == vn) = none := by
      rw [List.find?_eq_none]
      intro x hx
      simp only [beq_iff_eq]
      intro e
      apply hnm
      unfold artNames
      exact e ▸ List.mem_map_of_mem _ hx
    unfold Activity.read
    dsimp only
    rw [if_neg (by simpa using hne), hf]
  · intro vno he
    unfold Activity.read
    dsimp only
    simp [he]

/-- C6 witness: on the three-version demo artifact a plain read returns
`v3` and extends `read_history`; reading the absent `v7` fails with
`VersionNotFound`; reading an artifact with zero versions fails with
`ArtifactNotFound`. -/
theorem read_resolution_witness :
    Activity.read sampleActivity sampleDatastore "condition1_results" none =
      ({ sampleActivity with
          read_history := ["pond://catalog/experiment1/condition1_results/v3"] },
        .ok ⟨"v3", 3, sampleManifest⟩) ∧
    Activity.read sampleActivity sampleDatastore "condition1_results" (some "v7") =
      (sampleActivity, .error .VersionNotFound) ∧
    Activity.read sampleActivity sampleDatastore "condition2_results" (some "v1") =
      (sampleActivity, .error .ArtifactNotFound) := by
  have h := read_resolution sampleActivity sampleDatastore "condition1_results"
  have h2 := read_resolution sampleActivity sampleDatastore "condition2_results"
  refine ⟨?_, ?_, ?_⟩
  · exact (h.1 ⟨"v3", 3, sampleManifest⟩ (by decide)).trans (by decide)
  · exact h.2.1 "v7" (by decide) (by decide)
  · exact h2.2.2 (some "v1") (by decide)

/-! ## Sequential writes under the default mode -/

theorem filterMap_parse_map_vName (l : List Nat) :
    (l.map vName).filterMap parseVersionName = l := by
  induction l with
  | nil => rfl
  | cons n rest ih => simp [List.filterMap_cons, parseVersionName_vName, ih]

theorem foldl_max_map_succ_range (k : Nat) :
    ((List.range k).map (fun i => i + 1)).foldl (fun a b => max a b) 0 = k := by
  induction k with
  | zero => rfl
  | succ k ih =>
    rw [List.range_succ, List.map_append, List.foldl_append, ih]
    simp

theorem nextVersionNumber_vNames (k : Nat) :
    nextVersionNumber ((List.range k).map (fun i => vName (i + 1))) = k + 1 := by
  unfold nextVersionNumber
  have h1 : (List.range k).map (fun i => vName (i + 1)) =
      ((List.range k).map (fun i => i + 1)).map vName := by
    rw [List.map_map]
    rfl
  rw [h1, filterMap_parse_map_vName, foldl_max_map_succ_range]

theorem artNames_append_single (l : List StoredVersion) (v : StoredVersion) :
    artNames (l ++ [v]) = artNames l ++ [v.version_name] := by
  simp [artNames]

theorem activity_write_eie_none (a : Activity) (ds : Datastore) (d : Nat) (name : String)
    (md : List (String × String)) :
    Activity.write a ds d name none md .ERROR_IF_EXISTS =
      ({ a with write_history := insertUri (uriAt a name
          ⟨vName (nextVersionNumber (artNames (dsGet ds (a.location, name)))), d,
           Activity.makeManifest a md⟩) a.write_history },
       dsSet ds (a.location, name)
         (dsGet ds (a.location, name) ++
          [⟨vName (nextVersionNumber (artNames (dsGet ds (a.location, name)))), d,
            Activity.makeManifest a md⟩]),
       .ok (⟨vName (nextVersionNumber (artNames (dsGet ds (a.location, name)))), d,
            Activity.makeManifest a md⟩, true)) := rfl

theorem dsGet_dsSet_self (ds : Datastore) (k : String × String) (art : List StoredVersion) :
    dsGet (dsSet ds k art) k = art := by
  induction ds with
  | nil => simp [dsGet, dsSet]
  | cons p rest ih =>
    obtain ⟨k', a'⟩ := p
    by_cases hk : k' = k
    · simp [dsGet, dsSet, hk]
    · simp [dsGet, dsSet, hk, ih]

theorem writeMany_versions (name : String) (inputs : List (Nat × List (String × String))) :
    ∀ (a : Activity) (ds : Datastore) (k : Nat),
    artNames (dsGet ds (a.location, name)) = (List.range k).map (fun i => vName (i + 1)) →
    (writeMany a ds name inputs).1.location = a.location ∧
    artNames (dsGet (writeMany a ds name inputs).2
        ((writeMany a ds name inputs).1.location, name)) =
      (List.range (k + inputs.length)).map (fun i => vName (i + 1)) := by
  induction inputs with
  | nil =>
    intro a ds k h
    exact ⟨rfl, by simpa using h⟩
  | cons p rest ih =>
    obtain ⟨d, md⟩ := p
    intro a ds k h
    have hnext : nextVersionNumber (artNames (dsGet ds (a.location, name))) = k + 1 := by
      rw [h, nextVersionNumber_vNames]
    have hnames : artNames (dsGet ds (a.location, name) ++
        [⟨vName (nextVersionNumber (artNames (dsGet ds (a.location, name)))), d,
          Activity.makeManifest a md⟩]) =
        (List.range (k + 1)).map (fun i => vName (i + 1)) := by
      rw [artNames_append_single, hnext, h, List.range_succ, List.map_append]
      rfl
    have hunfold : writeMany a ds name ((d, md) :: rest) =
        writeMany (Activity.write a ds d name none md .ERROR_IF_EXISTS).1
          (Activity.write a ds d name none md .ERROR_IF_EXISTS).2.1 name rest := rfl
    rw [hunfold, activity_write_eie_none a ds d name md]
    dsimp only
    have hpre : artNames (dsGet (dsSet ds (a.location, name)
        (dsGet ds (a.location, name) ++
          [⟨vName (nextVersionNumber (artNames (dsGet ds (a.location, name)))), d,
            Activity.makeManifest a md⟩]))
        (({ a with write_history := insertUri (uriAt a name
            ⟨vName (nextVersionNumber (artNames (dsGet ds (a.location, name)))), d,
             Activity.makeManifest a md⟩) a.write_history } : Activity).location, name)) =
        (List.range (k + 1)).map (fun i => vName (i + 1)) := by
      dsimp only
      rw [dsGet_dsSet_self]
      exact hnames
    have happ := ih _ _ (k + 1) hpre
    refine ⟨happ.1, ?_⟩
    have h2 := happ.2
    rw [show (k + 1) + rest.length = k + ((d, md) :: rest).length from by
      rw [List.length_cons]; omega] at h2
    exact h2

/-- C1: starting from an artifact with zero versions, `n` writes via
`Activity.write` under `ERROR_IF_EXISTS` with no explicit version name
create exactly the versions `v1, v2, ..., vn` in that order: each write
targets `max(existing numeric names) + 1` (or 1 when none exist), always
performs a fresh write, and no number is skipped or reused — the final
backend listing is exactly `[v1, ..., vn]`. -/
theorem error_if_exists_writes_v1_to_vn (source author loc dsid name : String)
    (inputs : List (Nat × List (String × String))) :
    artNames (dsGet (writeMany (freshActivity source author loc dsid) [] name inputs).2
        (loc, name)) =
      (List.range inputs.length).map (fun i => vName (i + 1)) := by
  have h := writeMany_versions name inputs (freshActivity source author loc dsid) [] 0 (by rfl)
  have hl := h.1
  have h2 := h.2
  rw [hl] at h2
  simpa using h2

/-! ## The write-history invariant -/

theorem mem_replaceVersion (art : List StoredVersion) (vn : String) (v w : StoredVersion)
    (h : w ∈ replaceVersion art vn v) : w ∈ art ∨ w = v := by
  unfold replaceVersion at h
  obtain ⟨x, hx, he⟩ := List.mem_map.mp h
  by_cases hxe : x.version_name = vn
  · right
    rw [← he]
    simp [hxe]
  · left
    have hxw : x = w := by simpa [hxe] using he
    subst hxw
    exact hx

theorem write_ok_structure (dsid loc name : String) (art : List StoredVersion)
    (d : Nat) (m : Manifest) (vn : Option String) (mode : WriteMode)
    (art' : List StoredVersion) (v : StoredVersion) (wrote : Bool)
    (h : VersionedArtifact.write dsid loc name art d m vn mode = .ok (art', v, wrote)) :
    (∀ w, w ∈ art' → w ∈ art ∨ w = v) ∧ (wrote = false → art' = art ∧ v ∈ art) := by
  cases vn with
  | none =>
    cases mode with
    | ERROR_IF_EXISTS =>
      unfold VersionedArtifact.write at h
      dsimp only at h
      simp only [Except.ok.injEq, Prod.mk.injEq] at h
      obtain ⟨rfl, rfl, rfl⟩ := h
      refine ⟨fun w hw => by simpa using hw, by simp⟩
    | WRITE_ON_CHANGE =>
      unfold VersionedArtifact.write at h
      dsimp only at h
      cases hlv : latestVersion art with
      | some lv =>
        rw [hlv] at h
        dsimp only at h
        by_cases hd : lv.digest = d
        · rw [if_pos hd] at h
          simp only [Except.ok.injEq, Prod.mk.injEq] at h
          obtain ⟨rfl, rfl, rfl⟩ := h
          exact ⟨fun w hw => Or.inl hw, fun _ => ⟨rfl, (latestVersion_spec art lv hlv).1⟩⟩
        · rw [if_neg hd] at h
          simp only [Except.ok.injEq, Prod.mk.injEq] at h
          obtain ⟨rfl, rfl, rfl⟩ := h
          refine ⟨fun w hw => by simpa using hw, by simp⟩
      | none =>
        rw [hlv] at h
        dsimp only at h
        simp only [Except.ok.injEq, Prod.mk.injEq] at h
        obtain ⟨rfl, rfl, rfl⟩ := h
        refine ⟨fun w hw => by simpa using hw, by simp⟩
    | OVERWRITE =>
      unfold VersionedArtifact.write at h
      dsimp only at h
      cases hlv : latestVersion art with
      | some lv =>
        rw [hlv] at h
        dsimp only at h
        simp only [Except.ok.injEq, Prod.mk.injEq] at h
        obtain ⟨rfl, rfl, rfl⟩ := h
        refine ⟨fun w hw => mem_replaceVersion _ _ _ _ hw, by simp⟩
      | none =>
        rw [hlv] at h
        dsimp only at h
        simp only [Except.ok.injEq, Prod.mk.injEq] at h
        obtain ⟨rfl, rfl, rfl⟩ := h
        refine ⟨fun w hw => by simpa using hw, by simp⟩
  | some s =>
    unfold VersionedArtifact.write at h
    dsimp only at h
    by_cases hp : (parseVersionName s).isNone = true
    · rw [if_pos hp] at h
      simp at h
    · rw [if_neg hp] at h
      cases mode with
      | ERROR_IF_EXISTS =>
        dsimp only at h
        by_cases hm : s ∈ artNames art
        · rw [if_pos hm] at h
          simp at h
        · rw [if_neg hm] at h
          simp only [Except.ok.injEq, Prod.mk.injEq] at h
          obtain ⟨rfl, rfl, rfl⟩ := h
          refine ⟨fun w hw => by simpa using hw, by simp⟩
      | WRITE_ON_CHANGE =>
        dsimp only at h
        cases hf : art.find? (fun v => v.version_name == s) with
        | some v0 =>
          rw [hf] at h
          dsimp only at h
          by_cases hd : v0.digest = d
          · rw [if_pos hd] at h
            simp only [Except.ok.injEq, Prod.mk.injEq] at h
            obtain ⟨rfl, rfl, rfl⟩ := h
            exact ⟨fun w hw => Or.inl hw, fun _ => ⟨rfl, List.mem_of_find?_eq_some hf⟩⟩
          · rw [if_neg hd] at h
            simp at h
        | none =>
          rw [hf] at h
          dsimp only at h
          simp only [Except.ok.injEq, Prod.mk.injEq] at h
          obtain ⟨rfl, rfl, rfl⟩ := h
          refine ⟨fun w hw => by simpa using hw, by simp⟩
      | OVERWRITE =>
        dsimp only at h
        by_cases hm : s ∈ artNames art
        · rw [if_pos hm] at h
          simp only [Except.ok.injEq, Prod.mk.injEq] at h
          obtain ⟨rfl, rfl, rfl⟩ := h
          refine ⟨fun w hw => mem_replaceVersion _ _ _ _ hw, by simp⟩
        · rw [if_neg hm] at h
          simp only [Except.ok.injEq, Prod.mk.injEq] at h
          obtain ⟨rfl, rfl, rfl⟩ := h
          refine ⟨fun w hw => by simpa using hw, by simp⟩

theorem mem_insertUri_self (u : String) (l : List String) : u ∈ insertUri u l := by
  unfold insertUri
  by_cases hu : u ∈ l
  · simpa [hu]
  · simp [hu]

theorem mem_insertUri_of_mem (u x : String) (l : List String) (h : x ∈ l) :
    x ∈ insertUri u l := by
  unfold insertUri
  by_cases hu : u ∈ l
  · simpa [hu]
  · simp [hu, h]

theorem insertUri_eq_of_mem (u : String) (l : List String) (h : u ∈ l) :
    insertUri u l = l := by
  simp [insertUri, h]

theorem dsGet_dsSet_ne (ds : Datastore) (k k' : String × String) (art : List StoredVersion)
    (h : k' ≠ k) : dsGet (dsSet ds k art) k' = dsGet ds k' := by
  induction ds with
  | nil => simp [dsGet, dsSet, Ne.symm h]
  | cons p rest ih =>
    obtain ⟨k0, a0⟩ := p
    by_cases hk : k0 = k
    · subst hk
      simp [dsGet, dsSet, Ne.symm h]
    · simp [dsGet, dsSet, hk, ih]

theorem read_preserves_identity (a : Activity) (ds : Datastore) (name : String)
    (vn : Option String) :
    (Activity.read a ds name vn).1.write_history = a.write_history ∧
    (Activity.read a ds name vn).1.location = a.location ∧
    (Activity.read a ds name vn).1.datastore_id = a.datastore_id := by
  unfold Activity.read
  dsimp only
  repeat' split
  all_goals exact ⟨rfl, rfl, rfl⟩

theorem activity_write_cases (a : Activity) (ds : Datastore) (d : Nat) (name : String)
    (vn : Option String) (md : List (String × String)) (mode : WriteMode) :
    (∃ e, Activity.write a ds d name vn md mode = (a, ds, .error e)) ∨
    (∃ art' v wrote,
      VersionedArtifact.write a.datastore_id a.location name (dsGet ds (a.location, name)) d
        (Activity.makeManifest a md) vn mode = .ok (art', v, wrote) ∧
      Activity.write a ds d name vn md mode =
        ({ a with write_history := insertUri (uriAt a name v) a.write_history },
         if wrote then dsSet ds (a.location, name) art' else ds,
         .ok (v, wrote))) := by
  cases hw : VersionedArtifact.write a.datastore_id a.location name
      (dsGet ds (a.location, name)) d (Activity.makeManifest a md) vn mode with
  | error e =>
    left
    refine ⟨e, ?_⟩
    unfold Activity.write
    dsimp only
    rw [hw]
  | ok r =>
    obtain ⟨art', v, wrote⟩ := r
    right
    refine ⟨art', v, wrote, rfl, ?_⟩
    unfold Activity.write
    dsimp only
    rw [hw]

theorem stepOp_invariant (s : TraceState) (op : Op)
    (h1 : s.activity.write_history = s.persisted)
    (h2 : ∀ name v, v ∈ dsGet s.ds (s.activity.location, name) →
      uriAt s.activity name v ∈ s.persisted) :
    (stepOp s op).activity.write_history = (stepOp s op).persisted ∧
    (∀ name v, v ∈ dsGet (stepOp s op).ds ((stepOp s op).activity.location, name) →
      uriAt (stepOp s op).activity name v ∈ (stepOp s op).persisted) := by
  cases op with
  | read name vn =>
    unfold stepOp
    dsimp only
    obtain ⟨hsuch, hloc, hdsid⟩ := read_preserves_identity s.activity s.ds name vn
    constructor
    · rw [hsuch]
      exact h1
    · intro name' v hv
      rw [hloc] at hv
      unfold uriAt
      rw [hloc, hdsid]
      exact h2 name' v hv
  | write d name vn md mode =>
    rcases activity_write_cases s.activity s.ds d name vn md mode with
      ⟨e, heq⟩ | ⟨art', v, wrote, hw, heq⟩
    · unfold stepOp
      dsimp only
      rw [heq]
      dsimp only
      exact ⟨h1, h2⟩
    · obtain ⟨hsub, hnoop⟩ := write_ok_structure _ _ _ _ _ _ _ _ _ _ _ hw
      unfold stepOp
      dsimp only
      rw [heq]
      dsimp only
      cases wrote with
      | false =>
        simp only [Bool.false_eq_true, if_false]
        obtain ⟨rfl, hvmem⟩ := hnoop rfl
        have huri : uriAt s.activity name v ∈ s.persisted := h2 name v hvmem
        constructor
        · rw [h1]
          exact insertUri_eq_of_mem _ _ huri
        · intro name' v' hv'
          exact h2 name' v' hv'
      | true =>
        simp only [if_true]
        constructor
        · rw [h1]
        · intro name' v' hv'
          by_cases hname : name' = name
          · subst hname
            have hv2 : v' ∈ dsGet (dsSet s.ds (s.activity.location, name') art')
                (s.activity.location, name') := hv'
            rw [dsGet_dsSet_self] at hv2
            rcases hsub v' hv2 with hold | rfl
            · exact mem_insertUri_of_mem _ _ _ (h2 name' v' hold)
            · exact mem_insertUri_self _ _
          · have hv2 : v' ∈ dsGet (dsSet s.ds (s.activity.location, name) art')
                (s.activity.location, name') := hv'
            rw [dsGet_dsSet_ne _ _ _ _ (by simp [hname])] at hv2
            exact mem_insertUri_of_mem _ _ _ (h2 name' v' hv2)

theorem runTrace_invariant (ops : List Op) : ∀ s : TraceState,
    s.activity.write_history = s.persisted →
    (∀ name v, v ∈ dsGet s.ds (s.activity.location, name) →
      uriAt s.activity name v ∈ s.persisted) →
    (runTrace ops s).activity.write_history = (runTrace ops s).persisted := by
  induction ops with
  | nil =>
    intro s h1 h2
    exact h1
  | cons op rest ih =>
    intro s h1 h2
    obtain ⟨g1, g2⟩ := stepOp_invariant s op h1 h2
    exact ih (stepOp s op) g1 g2

/-- C4 (amended): for an Activity session run against a datastore that
starts empty — so that every version the session ever observes was
persisted by this Activity — `write_history` is, at every point in the
Activity's lifetime, exactly the accumulated list of URIs of versions
actually persisted by its write calls (`persisted` collects, in order and
without duplicates, the URI of each version whose bytes were freshly
written): a successful write adds the written version's URI, a failed
write adds nothing, and a `WRITE_ON_CHANGE` call taking the no-op branch
adds nothing new, because the latest version's URI it re-adds is already
in `write_history`. The restriction to an initially empty datastore is
forced: `write_history.add(version_uri)` runs after every successful
`VersionedArtifact.write`, so over a pre-populated store a no-op adds the
URI of a version this Activity never persisted (see the counterexample). -/
theorem write_history_is_persisted_uris (ops : List Op)
    (source author loc dsid : String) :
    (runTrace ops ⟨freshActivity source author loc dsid, [], []⟩).activity.write_history =
      (runTrace ops ⟨freshActivity source author loc dsid, [], []⟩).persisted := by
  apply runTrace_invariant
  · rfl
  · intro name v hv
    simp [dsGet] at hv

/-- C4 counterexample: over a pre-populated datastore the claim as stated
fails — a fresh Activity performing a single `WRITE_ON_CHANGE` no-op
(digest 3 equals the stored latest `v3`) persists nothing, yet
`write_history.add(version_uri)` runs on the returned pre-existing
version, so `write_history` ends up holding `v3`'s URI, a version this
Activity never persisted, and differs from the persisted-URI list. -/
theorem write_history_prepopulated_counterexample :
    (runTrace [Op.write 3 "condition1_results" none [] .WRITE_ON_CHANGE]
        ⟨sampleActivity, sampleDatastore, []⟩).activity.write_history =
      ["pond://catalog/experiment1/condition1_results/v3"] ∧
    (runTrace [Op.write 3 "condition1_results" none [] .WRITE_ON_CHANGE]
        ⟨sampleActivity, sampleDatastore, []⟩).persisted = [] ∧
    ¬ ((runTrace [Op.write 3 "condition1_results" none [] .WRITE_ON_CHANGE]
        ⟨sampleActivity, sampleDatastore, []⟩).activity.write_history =
      (runTrace [Op.write 3 "condition1_results" none [] .WRITE_ON_CHANGE]
        ⟨sampleActivity, sampleDatastore, []⟩).persisted) :=
  ⟨by decide, by decide, by decide⟩
